import Mathlib

/-!
Verification of the validor test-orchestration harness (Go).

The definitions below are a shallow embedding of the Go sources:

* `src/converter.go` — the reversible source-reference rewriter
  (`ConvertToLocal`, `RevertToRegistry`, `updateModuleBlock`,
  `updateModuleBlocks`, `updateVersionInContent`);
* `src/module.go` — the module lifecycle (`TfModule.Destroy`, `cleanupFiles`);
* `src/interfaces.go` — `ModuleError.Error`, `TestResults.AddModule`,
  `TestResults.GetResults`, the `ModuleInfo` / `FileRestore` records;
* the registry client (`DefaultRegistryClient.GetLatestVersion`).

External collaborators (the HCL round-trip parser, the filesystem, the HTTP
stack, JSON decoding, terraform process invocation, the context) are passed
in as explicit parameters or modelled as explicit state, mirroring the
points where the Go code calls out of the package.
-/

/-- One HCL block as manipulated by `hclwrite` in src/converter.go.
`source`/`version` model the literal string value of the corresponding
attribute when it exists and is a quoted string literal (`attributeStringValue`
returns `ok`); `none` covers both an absent attribute and a non-literal
expression, which `updateModuleBlock` treats identically (it returns false and
leaves the block alone). `other` models all remaining attributes, which the
converter never touches, and `body` the nested blocks. -/
inductive HBlock : Type where
  | mk (btype : String) (source : Option String) (version : Option String)
       (other : List (String × String)) (body : List HBlock) : HBlock

def HBlock.btype : HBlock → String
  | .mk t _ _ _ _ => t

def HBlock.source : HBlock → Option String
  | .mk _ s _ _ _ => s

def HBlock.version : HBlock → Option String
  | .mk _ _ v _ _ => v

def HBlock.body : HBlock → List HBlock
  | .mk _ _ _ _ b => b

/-- Replace a block's nested body, keeping its own attributes: `hclwrite`
mutates attributes and body independently. -/
def HBlock.withBody : HBlock → List HBlock → HBlock
  | .mk t s v o _, nb => .mk t s v o nb

/-- The record `ModuleInfo` from src/interfaces.go (`Name`, `Provider`, `Namespace`).
`Namespace` is spelled `nspace` because `namespace` is a Lean keyword. -/
structure ModuleInfo where
  name : String
  provider : String
  nspace : String

/-- The record `FileRestore` from src/interfaces.go. -/
structure FileRestore where
  path : String
  originalContent : String
  moduleName : String
  provider : String
  nspace : String

/-- The canonical registry source string, from src/converter.go line 35:
`fmt.Sprintf("%s/%s/%s", moduleInfo.Namespace, moduleInfo.Name, moduleInfo.Provider)`. -/
def moduleSourceOf (info : ModuleInfo) : String :=
  info.nspace ++ "/" ++ info.name ++ "/" ++ info.provider

/-- The sub-component regex of src/converter.go lines 36-40:
`^<ns>/<name>/<provider>//modules/(.*)$` with the three components
`regexp.QuoteMeta`-escaped, so the prefix is matched literally.  In RE2
(Go `regexp`) `.` does not match a newline and `^`/`$` anchor the whole
subject, so the regex matches exactly when the subject is the literal prefix
`ms ++ "//modules/"` followed by a newline-free captured segment.
Returns the captured group when the regex matches. -/
def subSeg (ms s : String) : Option String :=
  let pre := ms ++ "//modules/"
  if pre.data.isPrefixOf s.data then
    let seg : String := ⟨s.data.drop pre.data.length⟩
    if seg.data.all (fun c => c ≠ '\n') then some seg else none
  else none

/-- Embeds `strings.TrimPrefix(matches[1], "/")` from src/converter.go line 144:
drops one leading `/` when present. -/
def trimSlash (s : String) : String :=
  if "/".data.isPrefixOf s.data then ⟨s.data.drop 1⟩ else s

/-- Embeds `updateModuleBlock` from src/converter.go lines 126-152.  The attribute
lookup plus `attributeStringValue` is modelled by the `source` field
(see `HBlock`). -/
def updateModuleBlock (ms : String) (b : HBlock) : HBlock × Bool :=
  match b with
  | .mk t src ver oth body =>
    match src with
    | none => (.mk t src ver oth body, false)
    | some s =>
      if s = ms then
        (.mk t (some "../../") none oth body, true)
      else
        match subSeg ms s with
        | some seg =>
          (.mk t (some ("../../modules/" ++ trimSlash seg)) none oth body, true)
        | none => (.mk t src ver oth body, false)

/-- Embeds `updateModuleBlocks` from src/converter.go lines 113-124: walks every
block of a body, rewrites blocks of type `"module"` via `updateModuleBlock`,
and recurses into every block's nested body; the result flag is true when
any block changed. -/
def updateModuleBlocks (ms : String) : List HBlock → List HBlock × Bool
  | [] => ([], false)
  | HBlock.mk t src ver oth body :: rest =>
    let p1 :=
      if t = "module" then updateModuleBlock ms (.mk t src ver oth body)
      else (.mk t src ver oth body, false)
    let p2 := updateModuleBlocks ms body
    let p3 := updateModuleBlocks ms rest
    (p1.1.withBody p2.1 :: p3.1, (p1.2 || p2.2) || p3.2)

/-- Does a literal source attribute value match the module under test, either
exactly or via the sub-component pattern?  (`none` — no literal source — never
matches.) -/
def blockSourceMatches (ms : String) : Option String → Bool
  | some s => (s = ms) || (subSeg ms s).isSome
  | none => false

/-- Does any block (recursively) of type `"module"` carry a literal source that
matches the module under test, either exactly or via the sub-component
pattern?  This is the condition under which `updateModuleBlocks` reports a
change. -/
def anyModuleSourceMatch (ms : String) : List HBlock → Bool
  | [] => false
  | HBlock.mk t src _ _ body :: rest =>
    (t = "module" && blockSourceMatches ms src)
    || anyModuleSourceMatch ms body || anyModuleSourceMatch ms rest

/-- The on-disk state of the files `ConvertToLocal` can touch:
`none` models a path `os.ReadFile` fails on. -/
def FS : Type := String → Option String

/-- The write `os.WriteFile`, modelled as a pure map update (the write-failure branches of
the Go code, which abort with a wrapped error, are outside the claims below
and writes are assumed to succeed). -/
def writeFS (fs : FS) (p c : String) : FS :=
  fun q => if q = p then some c else fs q

/-- The error outcomes of the converter loops that matter to the claims. -/
inductive ConvError : Type where
  | cancelled
  | parseFailed (path : String)
deriving DecidableEq

/-- The per-file loop of `ConvertToLocal`, src/converter.go lines 42-77.
Parameters model the external collaborators: `cancelled i` is the state of
`ctx.Done()` when the check of iteration `i` runs; `parse` is
`hclwrite.ParseConfig` (none = `diags.HasErrors()`); `render` is
`parsedFile.Bytes()`.  Per the Go code: a cancelled context returns `nil`
(not the accumulator) plus `ctx.Err()`; an unreadable file is skipped
(`continue`); a parse failure returns the accumulator plus an error; a file
is written back and recorded only when `updateModuleBlocks` reports a
change. -/
def convertToLocalGo (cancelled : Nat → Bool)
    (parse : String → Option (List HBlock)) (render : List HBlock → String)
    (info : ModuleInfo) :
    List String → Nat → List FileRestore → FS → FS × List FileRestore × Option ConvError
  | [], _, acc, fs => (fs, acc, none)
  | file :: rest, i, acc, fs =>
    if cancelled i then (fs, [], some .cancelled)
    else
      match fs file with
      | none => convertToLocalGo cancelled parse render info rest (i + 1) acc fs
      | some content =>
        match parse content with
        | none => (fs, acc, some (.parseFailed file))
        | some blocks =>
          let r := updateModuleBlocks (moduleSourceOf info) blocks
          if r.2 then
            convertToLocalGo cancelled parse render info rest (i + 1)
              (acc ++ [⟨file, content, info.name, info.provider, info.nspace⟩])
              (writeFS fs file (render r.1))
          else
            convertToLocalGo cancelled parse render info rest (i + 1) acc fs

/-- The whitespace class of RE2's `\s`, which Go's regexp documents as
`[\t\n\f\r ]`. -/
def isSpaceRE2 (c : Char) : Bool :=
  c = ' ' || c = '\t' || c = '\n' || c = Char.ofNat 12 || c = '\r'

/-- Scan to the first `"` and return what follows it; `none` when there is no
closing quote.  This is how `[^"]*(")` resolves in RE2: the class cannot cross
a quote, so the match ends at the first one. -/
def findClose : List Char → Option (List Char)
  | [] => none
  | c :: rest => if c = '"' then some rest else findClose rest

/-- Try the regex `(version\s*=\s*")[^"]*(")` of src/converter.go line 106 at
the head of `cs`.  On success returns the text of capture group 1 (the
`version`, the surrounding whitespace, the `=` and the opening quote) and the
remainder of the subject after the closing quote.  The `\s*` pieces are
greedy-deterministic (whitespace followed by a non-whitespace literal), so
`takeWhile`/`dropWhile` are exact. -/
def matchVersionAt (cs : List Char) : Option (List Char × List Char) :=
  if "version".data.isPrefixOf cs then
    match (cs.drop 7).dropWhile isSpaceRE2 with
    | '=' :: cs3 =>
      match cs3.dropWhile isSpaceRE2 with
      | '"' :: cs5 =>
        match findClose cs5 with
        | some rest =>
          some ("version".data ++ (cs.drop 7).takeWhile isSpaceRE2
            ++ '=' :: cs3.takeWhile isSpaceRE2 ++ ['"'], rest)
        | none => none
      | _ => none
    | _ => none
  else none

/-- Left-to-right, non-overlapping replacement of every match of
`(version\s*=\s*")[^"]*(")` by `${1}~> v${2}`, exactly what
`versionRegex.ReplaceAllString` does in `updateVersionInContent`.
The fuel argument only bounds the recursion; any successful match consumes at
least ten characters, so fuel equal to the subject length always suffices.
(The Go code splices the version into the replacement template with Sprintf,
so a `$` inside the version string would undergo template expansion; version
strings are modelled as literal text, i.e. `$`-free.) -/
def replaceVersionAux (v : String) : Nat → List Char → List Char
  | _, [] => []
  | 0, cs => cs
  | Nat.succ n, c :: cs =>
    match matchVersionAt (c :: cs) with
    | some (g1, rest) => g1 ++ ("~> " ++ v).data ++ '"' :: replaceVersionAux v n rest
    | none => c :: replaceVersionAux v n cs

/-- Embeds `updateVersionInContent` from src/converter.go lines 105-111.  (The Go
code guards the replacement with `MatchString`; when nothing matches the
scanner already returns the content unchanged, so the guard is redundant.) -/
def updateVersionInContent (content latestVersion : String) : String :=
  ⟨replaceVersionAux latestVersion content.data.length content.data⟩

/-- The per-entry loop of `RevertToRegistry`, src/converter.go lines 80-103.
`lookup` models `registryClient.GetLatestVersion` (called with namespace,
module name, provider, in that order); a failed lookup writes the original
content back verbatim and continues; a successful one writes the original
content with every version pin replaced by `~> <latest>`.  `cancelled` is the
per-entry `ctx.Done()` check; as in the Go code it aborts before touching the
current entry.  Writes are assumed to succeed (see `writeFS`). -/
def revertToRegistryGo (cancelled : Nat → Bool)
    (lookup : String → String → String → Except String String) :
    List FileRestore → Nat → FS → FS × Option ConvError
  | [], _, fs => (fs, none)
  | r :: rest, i, fs =>
    if cancelled i then (fs, some .cancelled)
    else
      match lookup r.nspace r.moduleName r.provider with
      | .ok v =>
        revertToRegistryGo cancelled lookup rest (i + 1)
          (writeFS fs r.path (updateVersionInContent r.originalContent v))
      | .error _ =>
        revertToRegistryGo cancelled lookup rest (i + 1)
          (writeFS fs r.path r.originalContent)

/-- The mutable state of one `TfModule` (src/module.go lines 13-19): its name
and the two fields the lifecycle operations update. -/
structure TfModule where
  name : String
  errors : List String
  applyFailed : Bool

/-- Embeds `Module.Destroy` from src/module.go lines 87-109.  `destroyErr` is the
result of `terraform.DestroyE`; `cleanupFiles` is the cleanup step together
with whatever state it acts on (it always runs, and its error is recorded
under the same `!ApplyFailed` guard); the returned value is always the
destroy error itself. -/
def destroyRun {σ : Type} (m : TfModule) (destroyErr : Option String)
    (cleanupFiles : σ → σ × Option String) (st : σ) : TfModule × Option String × σ :=
  let m1 :=
    match destroyErr with
    | some e =>
      if m.applyFailed then m
      else { m with errors := m.errors ++ ["Destroy failed: " ++ e] }
    | none => m
  let r := cleanupFiles st
  let m2 :=
    match r.2 with
    | some e =>
      if m1.applyFailed then m1
      else { m1 with errors := m1.errors ++ ["Cleanup failed: " ++ e] }
    | none => m1
  (m2, destroyErr, r.1)

/-- Embeds `ModuleError.Error` from src/interfaces.go lines 101-103:
`fmt.Sprintf("%s failed for module %s: %v", e.Operation, e.ModuleName, e.Err)`. -/
def moduleErrorMessage (operation moduleName cause : String) : String :=
  operation ++ " failed for module " ++ moduleName ++ ": " ++ cause

/-- Modelled from the spec: the context-aware `TfModule.Apply` of the current
implementation is not under src/ (src/module.go holds an earlier revision;
the current one is only visible through its callers in validor.go and the
hook-based tests).  Spec section 4.1: "Apply(ctx) -> error: ... On failure:
sets applyFailed = true, appends a wrapped error of the form
'<operation> failed for module <name>: <cause>' to errors, returns the error.
On success: no state change, returns nil."  The wrapped message is
`ModuleError.Error` from src/interfaces.go with operation "apply";
`applyResult` is the outcome of the external provisioning step. -/
def applyRun (m : TfModule) (applyResult : Option String) : TfModule × Option String :=
  match applyResult with
  | none => (m, none)
  | some cause =>
    ({ m with applyFailed := true,
              errors := m.errors ++ [moduleErrorMessage "apply" m.name cause] },
     some (moduleErrorMessage "apply" m.name cause))

/-- The fixed glob patterns of the cleanup step, src/module.go line 115. -/
def cleanupPatterns : List String := ["*.terraform*", "*tfstate*", "*.lock.hcl"]

/-- The removal step `os.RemoveAll` over every glob match of one pattern: the files whose path
is in `paths` are gone afterwards. -/
def removeMatches (paths : List String) (files : String → Bool) : String → Bool :=
  fun q => if paths.contains q then false else files q

/-- Modelled from the spec: the context-aware `TfModule.Cleanup` of the current
implementation is not under src/ (src/module.go holds only the earlier,
context-less `cleanupFiles`; the current one is only visible through its
tests and callers).  Spec section 4.1: "Cleanup(ctx) -> error: removes
generated transient artifacts ... matching a fixed set of glob patterns ...
Must check for cancellation before each pattern and abort immediately —
already-removed files stay removed."  `cancelled i` is the context state at
the check before pattern number `i`; `glob` is `filepath.Glob`. -/
def cleanupRun (cancelled : Nat → Bool) (glob : String → List String) :
    List String → Nat → (String → Bool) → (String → Bool) × Option ConvError
  | [], _, files => (files, none)
  | p :: rest, i, files =>
    if cancelled i then (files, some .cancelled)
    else cleanupRun cancelled glob rest (i + 1) (removeMatches (glob p) files)

/-- The JSON shape `TerraformRegistryResponse` of src/interfaces.go lines
89-93, flattened: each entry of `versions` carries only its version string. -/
structure RegistryResponse where
  versions : List String

/-- Embeds `DefaultRegistryClient.GetLatestVersion`.  Here `doResult` is the combined
outcome of building and executing the HTTP request (error = the network
request failed); on success it carries the status code and the outcome of
reading the body; `decode` is `json.Unmarshal` into
`TerraformRegistryResponse`.  Mirrors the Go control flow: network error,
then the `StatusCode != 200` check, then the body read, then the decode,
then the empty-versions check, and finally the first entry's version string
is returned without sorting. -/
def getLatestVersionGo (nspace name provider : String)
    (doResult : Except String (Nat × Except String String))
    (decode : String → Except String RegistryResponse) : Except String String :=
  match doResult with
  | .error e => .error ("failed to fetch module versions: " ++ e)
  | .ok (status, bodyResult) =>
    if status ≠ 200 then
      .error ("failed to fetch module versions: HTTP " ++ toString status)
    else
      match bodyResult with
      | .error e => .error ("failed to read response body: " ++ e)
      | .ok body =>
        match decode body with
        | .error e => .error ("failed to parse response: " ++ e)
        | .ok resp =>
          match resp.versions with
          | [] =>
            .error ("no versions found for module " ++ nspace ++ "/" ++ name ++ "/" ++ provider)
          | v :: _ => .ok v

/-- The state of `TestResults` from src/interfaces.go lines 47-51: the two append-only
sequences.  The reader/writer lock serialises `AddModule` calls, so the
shallow embedding is the sequential interleaving of the calls. -/
structure TRModel where
  modules : List TfModule
  failed : List TfModule

/-- Embeds `TestResults.AddModule`, src/interfaces.go lines 60-67. -/
def addModule (tr : TRModel) (m : TfModule) : TRModel :=
  { modules := tr.modules ++ [m],
    failed := if m.errors.length > 0 then tr.failed ++ [m] else tr.failed }

/-- Embeds `TestResults.GetResults`, src/interfaces.go lines 69-73. -/
def getResults (tr : TRModel) : List TfModule × List TfModule :=
  (tr.modules, tr.failed)

/-- One `AddModule` call per module, starting from `NewTestResults`. -/
def addAll (ms : List TfModule) : TRModel :=
  ms.foldl addModule ⟨[], []⟩

/-! ### Helper lemmas -/

theorem isPrefixOf_append_self (l r : List Char) : l.isPrefixOf (l ++ r) = true := by
  rw [List.isPrefixOf_iff_prefix]
  exact List.prefix_append l r

/-- The sub-component regex accepts exactly the canonical prefix followed by a
newline-free segment, and captures the segment. -/
theorem subSeg_append (ms seg : String) (h : seg.data.all (fun c => c ≠ '\n') = true) :
    subSeg ms (ms ++ "//modules/" ++ seg) = some seg := by
  have hdata : (ms ++ "//modules/" ++ seg).data = (ms ++ "//modules/").data ++ seg.data :=
    String.data_append _ _
  have hpre : ((ms ++ "//modules/").data).isPrefixOf ((ms ++ "//modules/" ++ seg).data) = true := by
    rw [hdata]; exact isPrefixOf_append_self _ _
  have hdrop : ((ms ++ "//modules/" ++ seg).data).drop ((ms ++ "//modules/").data).length
      = seg.data := by
    rw [hdata]; exact List.drop_left _ _
  simp only [subSeg, hpre, if_true, hdrop, h]

/-- A sub-component source string is never the canonical source string itself
(it is strictly longer). -/
theorem append_modules_ne (ms seg : String) : ms ++ "//modules/" ++ seg ≠ ms := by
  intro h
  have hlen := congrArg String.length h
  have h10 : ("//modules/" : String).length = 10 := rfl
  simp only [String.length_append, h10] at hlen
  omega

/-- Claim C1.  For every module block: a literal source equal to the canonical
string `namespace/name/provider` is rewritten to `"../../"` and the version
attribute is removed; a literal source of the form
`namespace/name/provider//modules/<segment>` (the regex requires the segment
to be newline-free) is rewritten to `"../../modules/" ++ <segment stripped of
one leading "/">` and the version is removed; any other source value — one
that matches neither pattern, or an absent/non-literal source attribute —
leaves the block untouched.  All other attributes and nested blocks are
preserved in every case. -/
theorem C1_update_module_block_cases (ms t : String) (src ver : Option String)
    (oth : List (String × String)) (body : List HBlock) :
    (∀ s, src = some s → s = ms →
      updateModuleBlock ms (.mk t src ver oth body) =
        (.mk t (some "../../") none oth body, true)) ∧
    (∀ seg, src = some (ms ++ "//modules/" ++ seg) →
      seg.data.all (fun c => c ≠ '\n') = true →
      updateModuleBlock ms (.mk t src ver oth body) =
        (.mk t (some ("../../modules/" ++ trimSlash seg)) none oth body, true)) ∧
    (∀ s, src = some s → s ≠ ms → subSeg ms s = none →
      updateModuleBlock ms (.mk t src ver oth body) = (.mk t src ver oth body, false)) ∧
    (src = none →
      updateModuleBlock ms (.mk t src ver oth body) = (.mk t src ver oth body, false)) := by
  refine ⟨?_, ?_, ?_, ?_⟩
  · intro s hs hsms
    subst hs; subst hsms
    simp [updateModuleBlock]
  · intro seg hs hseg
    subst hs
    have hne := append_modules_ne ms seg
    simp [updateModuleBlock, hne, subSeg_append ms seg hseg]
  · intro s hs hne hsub
    subst hs
    simp [updateModuleBlock, hne, hsub]
  · intro hs
    subst hs
    simp [updateModuleBlock]

/-- Witness for C1: the three cases at concrete blocks (exact match,
sub-component match, unrelated source). -/
theorem C1_update_module_block_cases_witness :
    updateModuleBlock "cloudnationhq/mymodule/azure"
        (.mk "module" (some "cloudnationhq/mymodule/azure") (some "~> 1.0") [] []) =
      (.mk "module" (some "../../") none [] [], true) ∧
    updateModuleBlock "cloudnationhq/mymodule/azure"
        (.mk "module" (some "cloudnationhq/mymodule/azure//modules/network") (some "~> 1.0") [] []) =
      (.mk "module" (some "../../modules/network") none [] [], true) ∧
    updateModuleBlock "cloudnationhq/mymodule/azure"
        (.mk "module" (some "hashicorp/consul/aws") (some "~> 1.0") [] []) =
      (.mk "module" (some "hashicorp/consul/aws") (some "~> 1.0") [] [], false) := by
  refine ⟨?_, ?_, ?_⟩
  · exact (C1_update_module_block_cases "cloudnationhq/mymodule/azure" "module"
      (some "cloudnationhq/mymodule/azure") (some "~> 1.0") [] []).1 _ rfl rfl
  · exact (C1_update_module_block_cases "cloudnationhq/mymodule/azure" "module"
      (some "cloudnationhq/mymodule/azure//modules/network") (some "~> 1.0") [] []).2.1
      "network" (by decide) (by decide)
  · exact (C1_update_module_block_cases "cloudnationhq/mymodule/azure" "module"
      (some "hashicorp/consul/aws") (some "~> 1.0") [] []).2.2.1
      "hashicorp/consul/aws" rfl (by decide) (by decide)

/-- Claim C2.  `Module.Destroy`: the wrapped teardown-failure message is
appended to the module's errors exactly when the teardown step fails while
`applyFailed` is false (when `applyFailed` is true nothing is appended for
it); the teardown error is always returned to the caller; and the cleanup
step is performed afterwards regardless of the teardown outcome (its effect
on the state and, under the same `applyFailed` guard, on the error list,
always takes place). -/
theorem C2_destroy_error_handling {σ : Type} (m : TfModule) (destroyErr : Option String)
    (cleanupFiles : σ → σ × Option String) (st : σ) :
    (destroyRun m destroyErr cleanupFiles st).1.errors =
      (m.errors ++
        (match destroyErr with
         | some e => if m.applyFailed then [] else ["Destroy failed: " ++ e]
         | none => [])) ++
        (match (cleanupFiles st).2 with
         | some e => if m.applyFailed then [] else ["Cleanup failed: " ++ e]
         | none => []) ∧
    (destroyRun m destroyErr cleanupFiles st).2.1 = destroyErr ∧
    (destroyRun m destroyErr cleanupFiles st).2.2 = (cleanupFiles st).1 ∧
    (destroyRun m destroyErr cleanupFiles st).1.applyFailed = m.applyFailed := by
  cases hd : destroyErr with
  | none =>
    cases hc : (cleanupFiles st).2 with
    | none => cases hf : m.applyFailed <;> simp [destroyRun, hd, hc, hf]
    | some e => cases hf : m.applyFailed <;> simp [destroyRun, hd, hc, hf]
  | some e =>
    cases hc : (cleanupFiles st).2 with
    | none => cases hf : m.applyFailed <;> simp [destroyRun, hd, hc, hf]
    | some e2 => cases hf : m.applyFailed <;> simp [destroyRun, hd, hc, hf]

/-- Folding `AddModule` over a list of modules appends all of them to
`modules` and the failing ones, in order, to `failedModules`. -/
theorem foldl_addModule (ms : List TfModule) :
    ∀ tr : TRModel,
      (ms.foldl addModule tr).modules = tr.modules ++ ms ∧
      (ms.foldl addModule tr).failed =
        tr.failed ++ ms.filter (fun m => decide (0 < m.errors.length)) := by
  induction ms with
  | nil => intro tr; simp
  | cons m rest ih =>
    intro tr
    have h := ih (addModule tr m)
    rw [List.foldl_cons]
    constructor
    · rw [h.1]; simp [addModule]
    · rw [h.2]
      by_cases hm : 0 < m.errors.length <;> simp [addModule, hm]

/-- Claim C8.  After one `AddModule` call per module over a list of modules,
`GetResults` returns all of them in insertion order, and the failed sequence
is exactly the in-order sub-sequence of modules whose `Errors` was non-empty
when added: the counts are the total count and the failing count, and a
module appears among the failed ones iff its error list is non-empty. -/
theorem C8_results_aggregation (ms : List TfModule) :
    getResults (addAll ms) = (ms, ms.filter (fun m => decide (0 < m.errors.length))) ∧
    (getResults (addAll ms)).1.length = ms.length ∧
    (getResults (addAll ms)).2.length =
      (ms.filter (fun m => decide (0 < m.errors.length))).length ∧
    (∀ m, m ∈ (getResults (addAll ms)).2 ↔ m ∈ ms ∧ 0 < m.errors.length) := by
  have h := foldl_addModule ms ⟨[], []⟩
  have h1 : (addAll ms).modules = ms := by simpa [addAll] using h.1
  have h2 : (addAll ms).failed = ms.filter (fun m => decide (0 < m.errors.length)) := by
    simpa [addAll] using h.2
  refine ⟨?_, ?_, ?_, ?_⟩
  · simp [getResults, h1, h2]
  · simp [getResults, h1]
  · simp [getResults, h2]
  · intro m
    simp [getResults, h2, List.mem_filter]

/-- When no module block (recursively) matches the module under test,
`updateModuleBlocks` leaves the body unchanged and reports no change. -/
theorem updateModuleBlocks_of_no_match (ms : String) :
    ∀ bs, anyModuleSourceMatch ms bs = false → updateModuleBlocks ms bs = (bs, false) := by
  intro bs
  induction bs using updateModuleBlocks.induct ms with
  | case1 => intro _; simp [updateModuleBlocks]
  | case2 t src ver oth body rest ih1 ih2 =>
    intro h
    rw [anyModuleSourceMatch] at h
    simp only [Bool.or_eq_false_iff, Bool.and_eq_false_iff] at h
    rw [updateModuleBlocks]
    rw [ih1 h.1.2, ih2 h.2]
    rcases h with ⟨⟨hhead, _⟩, _⟩
    rcases hhead with ht | hsrc
    · have ht' : ¬t = "module" := by simpa using ht
      simp [ht', HBlock.withBody]
    · cases src with
      | none => by_cases ht : t = "module" <;> simp [updateModuleBlock, ht, HBlock.withBody]
      | some s =>
        rw [blockSourceMatches] at hsrc
        simp only [Bool.or_eq_false_iff, decide_eq_false_iff_not] at hsrc
        have hnone : subSeg ms s = none := by
          cases hsub : subSeg ms s with
          | none => rfl
          | some seg => rw [hsub] at hsrc; simp at hsrc
        by_cases ht : t = "module" <;>
          simp [updateModuleBlock, hsrc.1, hnone, ht, HBlock.withBody]

/-- Frame property of the `ConvertToLocal` loop: a path that is not among the
remaining files is never written, and every returned restore entry either was
already accumulated or names one of the processed files. -/
theorem convertToLocalGo_frame (cancelled : Nat → Bool)
    (parse : String → Option (List HBlock)) (render : List HBlock → String)
    (info : ModuleInfo) :
    ∀ (files : List String) (i : Nat) (acc : List FileRestore) (fs : FS),
      (∀ p, p ∉ files →
        (convertToLocalGo cancelled parse render info files i acc fs).1 p = fs p) ∧
      (∀ e, e ∈ (convertToLocalGo cancelled parse render info files i acc fs).2.1 →
        e ∈ acc ∨ e.path ∈ files) := by
  intro files
  induction files with
  | nil =>
    intro i acc fs
    constructor
    · intro p _; simp [convertToLocalGo]
    · intro e he; simp only [convertToLocalGo] at he; exact Or.inl he
  | cons file rest ih =>
    intro i acc fs
    by_cases hc : cancelled i = true
    · constructor
      · intro p _; simp [convertToLocalGo, hc]
      · intro e he; simp [convertToLocalGo, hc] at he
    · have hcf : cancelled i = false := by simpa using hc
      cases hr : fs file with
      | none =>
        constructor
        · intro p hp
          have hp' : p ∉ rest := fun h => hp (List.mem_cons_of_mem _ h)
          simpa [convertToLocalGo, hcf, hr] using (ih (i + 1) acc fs).1 p hp'
        · intro e he
          simp only [convertToLocalGo, hcf, Bool.false_eq_true, if_false, hr] at he
          rcases (ih (i + 1) acc fs).2 e he with h | h
          · exact Or.inl h
          · exact Or.inr (List.mem_cons_of_mem _ h)
      | some content =>
        cases hp : parse content with
        | none =>
          constructor
          · intro p _; simp [convertToLocalGo, hcf, hr, hp]
          · intro e he
            simp only [convertToLocalGo, hcf, Bool.false_eq_true, if_false, hr, hp] at he
            exact Or.inl he
        | some blocks =>
          by_cases hch : (updateModuleBlocks (moduleSourceOf info) blocks).2 = true
          · constructor
            · intro p hpmem
              have hpf : p ≠ file := fun h => hpmem (h ▸ List.mem_cons_self _ _)
              have hp' : p ∉ rest := fun h => hpmem (List.mem_cons_of_mem _ h)
              have hfr := (ih (i + 1)
                (acc ++ [⟨file, content, info.name, info.provider, info.nspace⟩])
                (writeFS fs file
                  (render (updateModuleBlocks (moduleSourceOf info) blocks).1))).1 p hp'
              simp only [convertToLocalGo, hcf, Bool.false_eq_true, if_false, hr, hp, hch,
                if_true]
              rw [hfr]
              simp [writeFS, hpf]
            · intro e he
              simp only [convertToLocalGo, hcf, Bool.false_eq_true, if_false, hr, hp, hch,
                if_true] at he
              rcases (ih (i + 1)
                (acc ++ [⟨file, content, info.name, info.provider, info.nspace⟩])
                (writeFS fs file
                  (render (updateModuleBlocks (moduleSourceOf info) blocks).1))).2 e he with
                h | h
              · rcases List.mem_append.mp h with h2 | h2
                · exact Or.inl h2
                · simp only [List.mem_singleton] at h2
                  subst h2
                  exact Or.inr (List.mem_cons_self _ _)
              · exact Or.inr (List.mem_cons_of_mem _ h)
          · have hchf : (updateModuleBlocks (moduleSourceOf info) blocks).2 = false := by
              simpa using hch
            constructor
            · intro p hpmem
              have hp' : p ∉ rest := fun h => hpmem (List.mem_cons_of_mem _ h)
              have hfr := (ih (i + 1) acc fs).1 p hp'
              simp only [convertToLocalGo, hcf, Bool.false_eq_true, if_false, hr, hp, hchf]
              exact hfr
            · intro e he
              simp only [convertToLocalGo, hcf, Bool.false_eq_true, if_false, hr, hp,
                hchf] at he
              rcases (ih (i + 1) acc fs).2 e he with h | h
              · exact Or.inl h
              · exact Or.inr (List.mem_cons_of_mem _ h)

/-- Claim C3, as stated, is false: `ConvertToLocal` returns `nil` — not the
restore entries recorded so far — when it finds the context cancelled.
Concrete run: two files; the first one is rewritten on disk in iteration 0
(its content changes from "A" to "LOCAL") and a restore entry for it is
recorded (the last conjunct shows the very same run without cancellation
returns exactly that entry); the context is cancelled at the check of
iteration 1; yet the run returns the empty sequence together with the
cancellation error, so the already-rewritten, already-recorded file is *not*
in the returned sequence. -/
theorem C3_cancel_claim_counterexample :
    ((convertToLocalGo (fun i => decide (1 ≤ i))
        (fun c => if c = "A"
          then some [HBlock.mk "module" (some "ns/mod/prov") (some "1.0") [] []]
          else if c = "B" then some [] else none)
        (fun _ => "LOCAL") ⟨"mod", "prov", "ns"⟩
        ["a.tf", "b.tf"] 0 []
        (fun p => if p = "a.tf" then some "A" else if p = "b.tf" then some "B" else none)).2.2
      = some ConvError.cancelled) ∧
    ((convertToLocalGo (fun i => decide (1 ≤ i))
        (fun c => if c = "A"
          then some [HBlock.mk "module" (some "ns/mod/prov") (some "1.0") [] []]
          else if c = "B" then some [] else none)
        (fun _ => "LOCAL") ⟨"mod", "prov", "ns"⟩
        ["a.tf", "b.tf"] 0 []
        (fun p => if p = "a.tf" then some "A" else if p = "b.tf" then some "B" else none)).1
      "a.tf" = some "LOCAL") ∧
    ((convertToLocalGo (fun i => decide (1 ≤ i))
        (fun c => if c = "A"
          then some [HBlock.mk "module" (some "ns/mod/prov") (some "1.0") [] []]
          else if c = "B" then some [] else none)
        (fun _ => "LOCAL") ⟨"mod", "prov", "ns"⟩
        ["a.tf", "b.tf"] 0 []
        (fun p => if p = "a.tf" then some "A" else if p = "b.tf" then some "B" else none)).2.1
      = []) ∧
    ((convertToLocalGo (fun _ => false)
        (fun c => if c = "A"
          then some [HBlock.mk "module" (some "ns/mod/prov") (some "1.0") [] []]
          else if c = "B" then some [] else none)
        (fun _ => "LOCAL") ⟨"mod", "prov", "ns"⟩
        ["a.tf", "b.tf"] 0 []
        (fun p => if p = "a.tf" then some "A" else if p = "b.tf" then some "B" else none)).2.1
      = [⟨"a.tf", "A", "mod", "prov", "ns"⟩]) := by
  refine ⟨?_, ?_, ?_, ?_⟩ <;>
    simp [convertToLocalGo, updateModuleBlocks, updateModuleBlock, subSeg, moduleSourceOf,
      writeFS, HBlock.withBody]

/-- Claim C3 (amended).  Whenever `ConvertToLocal` finds the context cancelled
at its per-file cancellation check, it stops processing and returns a nil
(empty) sequence of `FileRestore` entries together with the cancellation
error; files already rewritten in earlier iterations remain rewritten on disk
(the file-system state is returned exactly as accumulated), but the entries
recorded for them are discarded and are not part of the returned sequence. -/
theorem C3_cancel_returns_nil (cancelled : Nat → Bool)
    (parse : String → Option (List HBlock)) (render : List HBlock → String)
    (info : ModuleInfo) (file : String) (rest : List String) (i : Nat)
    (acc : List FileRestore) (fs : FS) (h : cancelled i = true) :
    convertToLocalGo cancelled parse render info (file :: rest) i acc fs
      = (fs, [], some ConvError.cancelled) := by
  simp [convertToLocalGo, h]

/-- Witness for the amended C3 at a concrete cancelled run. -/
theorem C3_cancel_returns_nil_witness :
    convertToLocalGo (fun _ => true) (fun _ => none) (fun _ => "") ⟨"mod", "prov", "ns"⟩
      ["a.tf"] 0 [] (fun _ => none)
      = ((fun _ => none : FS), [], some ConvError.cancelled) :=
  C3_cancel_returns_nil (fun _ => true) (fun _ => none) (fun _ => "") ⟨"mod", "prov", "ns"⟩
    "a.tf" [] 0 [] (fun _ => none) rfl

/-- Claim C9.  A configuration file in which no module block's literal source
matches the module under test — neither the canonical string nor the
sub-component pattern — is left byte-identical on disk by the conversion
pass, and no `FileRestore` entry is recorded for it. -/
theorem C9_unmatched_file_untouched (cancelled : Nat → Bool)
    (parse : String → Option (List HBlock)) (render : List HBlock → String)
    (info : ModuleInfo) (file : String) (rest : List String) (i : Nat)
    (acc : List FileRestore) (fs : FS) (content : String) (blocks : List HBlock)
    (hc : cancelled i = false)
    (hread : fs file = some content)
    (hparse : parse content = some blocks)
    (hnm : anyModuleSourceMatch (moduleSourceOf info) blocks = false)
    (hnr : file ∉ rest) :
    (convertToLocalGo cancelled parse render info (file :: rest) i acc fs).1 file
      = some content ∧
    (∀ e, e ∈ (convertToLocalGo cancelled parse render info (file :: rest) i acc fs).2.1 →
      e.path = file → e ∈ acc) := by
  have hupd := updateModuleBlocks_of_no_match (moduleSourceOf info) blocks hnm
  have hstep : convertToLocalGo cancelled parse render info (file :: rest) i acc fs
      = convertToLocalGo cancelled parse render info rest (i + 1) acc fs := by
    simp [convertToLocalGo, hc, hread, hparse, hupd]
  rw [hstep]
  constructor
  · rw [(convertToLocalGo_frame cancelled parse render info rest (i + 1) acc fs).1 file hnr]
    exact hread
  · intro e he hpath
    rcases (convertToLocalGo_frame cancelled parse render info rest (i + 1) acc fs).2 e he with
      h | h
    · exact h
    · exact absurd (hpath ▸ h) hnr

/-- Witness for C9: a file whose only module block points at an unrelated
source is byte-identical after the pass and produces no restore entry. -/
theorem C9_unmatched_file_untouched_witness :
    (convertToLocalGo (fun _ => false)
        (fun c => if c = "C"
          then some [HBlock.mk "module" (some "other/thing/prov") (some "1.0") [] []]
          else none)
        (fun _ => "X") ⟨"mod", "prov", "ns"⟩
        ["c.tf"] 0 [] (fun p => if p = "c.tf" then some "C" else none)).1 "c.tf"
      = some "C" ∧
    (∀ e, e ∈ (convertToLocalGo (fun _ => false)
        (fun c => if c = "C"
          then some [HBlock.mk "module" (some "other/thing/prov") (some "1.0") [] []]
          else none)
        (fun _ => "X") ⟨"mod", "prov", "ns"⟩
        ["c.tf"] 0 [] (fun p => if p = "c.tf" then some "C" else none)).2.1 →
      e.path = "c.tf" → e ∈ ([] : List FileRestore)) :=
  C9_unmatched_file_untouched (fun _ => false)
    (fun c => if c = "C"
      then some [HBlock.mk "module" (some "other/thing/prov") (some "1.0") [] []]
      else none)
    (fun _ => "X") ⟨"mod", "prov", "ns"⟩ "c.tf" [] 0 []
    (fun p => if p = "c.tf" then some "C" else none) "C"
    [HBlock.mk "module" (some "other/thing/prov") (some "1.0") [] []]
    rfl (by simp) (by simp)
    (by simp [anyModuleSourceMatch, blockSourceMatches, subSeg, moduleSourceOf])
    (by simp)

/-- Claim C10.  When reading one of the enumerated configuration files fails,
`ConvertToLocal` silently skips it: the run's outcome is exactly that of
processing the remaining files (so no error is produced for the unreadable
file), the file is never written, and no restore entry with its path is
recorded. -/
theorem C10_unreadable_file_skipped (cancelled : Nat → Bool)
    (parse : String → Option (List HBlock)) (render : List HBlock → String)
    (info : ModuleInfo) (file : String) (rest : List String) (i : Nat)
    (acc : List FileRestore) (fs : FS)
    (hc : cancelled i = false)
    (hread : fs file = none) :
    convertToLocalGo cancelled parse render info (file :: rest) i acc fs
      = convertToLocalGo cancelled parse render info rest (i + 1) acc fs ∧
    (file ∉ rest →
      (convertToLocalGo cancelled parse render info (file :: rest) i acc fs).1 file = none ∧
      (∀ e, e ∈ (convertToLocalGo cancelled parse render info (file :: rest) i acc fs).2.1 →
        e.path = file → e ∈ acc)) := by
  have hstep : convertToLocalGo cancelled parse render info (file :: rest) i acc fs
      = convertToLocalGo cancelled parse render info rest (i + 1) acc fs := by
    simp [convertToLocalGo, hc, hread]
  refine ⟨hstep, fun hnr => ?_⟩
  rw [hstep]
  constructor
  · rw [(convertToLocalGo_frame cancelled parse render info rest (i + 1) acc fs).1 file hnr]
    exact hread
  · intro e he hpath
    rcases (convertToLocalGo_frame cancelled parse render info rest (i + 1) acc fs).2 e he with
      h | h
    · exact h
    · exact absurd (hpath ▸ h) hnr

/-- Witness for C10: a run over one unreadable and one readable file behaves
exactly like the run over the readable file alone. -/
theorem C10_unreadable_file_skipped_witness :
    convertToLocalGo (fun _ => false) (fun _ => some []) (fun _ => "X") ⟨"mod", "prov", "ns"⟩
        ["bad.tf", "good.tf"] 0 [] (fun p => if p = "good.tf" then some "G" else none)
      = convertToLocalGo (fun _ => false) (fun _ => some []) (fun _ => "X") ⟨"mod", "prov", "ns"⟩
        ["good.tf"] 1 [] (fun p => if p = "good.tf" then some "G" else none) :=
  (C10_unreadable_file_skipped (fun _ => false) (fun _ => some []) (fun _ => "X")
    ⟨"mod", "prov", "ns"⟩ "bad.tf" ["good.tf"] 0 []
    (fun p => if p = "good.tf" then some "G" else none) rfl (by simp)).1

/-- Claim C5.  `GetLatestVersion` returns the version string of the first
entry of the decoded versions sequence, without sorting, and returns an error
exactly in these cases: the network request fails, the response status is not
200, the body cannot be read, the body does not decode to the expected shape,
or the decoded versions sequence is empty.  The success cases and the five
error cases (with their distinguishing messages) are enumerated, and the
result is a success iff none of the five conditions holds. -/
theorem C5_get_latest_version (nspace name provider : String)
    (doResult : Except String (Nat × Except String String))
    (decode : String → Except String RegistryResponse) :
    (∀ body r v tail, doResult = .ok (200, .ok body) → decode body = .ok r →
      r.versions = v :: tail →
      getLatestVersionGo nspace name provider doResult decode = .ok v) ∧
    (∀ e, doResult = .error e →
      getLatestVersionGo nspace name provider doResult decode =
        .error ("failed to fetch module versions: " ++ e)) ∧
    (∀ st b, doResult = .ok (st, b) → st ≠ 200 →
      getLatestVersionGo nspace name provider doResult decode =
        .error ("failed to fetch module versions: HTTP " ++ toString st)) ∧
    (∀ e, doResult = .ok (200, .error e) →
      getLatestVersionGo nspace name provider doResult decode =
        .error ("failed to read response body: " ++ e)) ∧
    (∀ body e, doResult = .ok (200, .ok body) → decode body = .error e →
      getLatestVersionGo nspace name provider doResult decode =
        .error ("failed to parse response: " ++ e)) ∧
    (∀ body r, doResult = .ok (200, .ok body) → decode body = .ok r →
      r.versions = [] →
      getLatestVersionGo nspace name provider doResult decode =
        .error ("no versions found for module "
          ++ nspace ++ "/" ++ name ++ "/" ++ provider)) ∧
    ((getLatestVersionGo nspace name provider doResult decode).isOk = true ↔
      ∃ body r, doResult = .ok (200, .ok body) ∧ decode body = .ok r ∧
        r.versions ≠ []) := by
  refine ⟨?_, ?_, ?_, ?_, ?_, ?_, ?_⟩
  · intro body r v tail hdo hdec hv
    simp [getLatestVersionGo, hdo, hdec, hv]
  · intro e hdo
    simp [getLatestVersionGo, hdo]
  · intro st b hdo hst
    simp [getLatestVersionGo, hdo, hst]
  · intro e hdo
    simp [getLatestVersionGo, hdo]
  · intro body e hdo hdec
    simp [getLatestVersionGo, hdo, hdec]
  · intro body r hdo hdec hv
    simp [getLatestVersionGo, hdo, hdec, hv]
  · constructor
    · intro hok
      match hdo : doResult with
      | .error e => simp [getLatestVersionGo, Except.isOk, Except.toBool] at hok
      | .ok (st, b) =>
        by_cases hst : st = 200
        · subst hst
          match hb : b with
          | .error e => simp [getLatestVersionGo, Except.isOk, Except.toBool] at hok
          | .ok body =>
            match hdec : decode body with
            | .error e => simp [getLatestVersionGo, hdec, Except.isOk, Except.toBool] at hok
            | .ok r =>
              match hv : r.versions with
              | [] => simp [getLatestVersionGo, hdec, hv, Except.isOk, Except.toBool] at hok
              | v :: tail => exact ⟨body, r, rfl, hdec, by simp [hv]⟩
        · simp [getLatestVersionGo, hst, Except.isOk, Except.toBool] at hok
    · rintro ⟨body, r, hdo, hdec, hv⟩
      match hvv : r.versions with
      | [] => exact absurd hvv hv
      | v :: tail => simp [getLatestVersionGo, hdo, hdec, hvv, Except.isOk, Except.toBool]

/-- Witness for C5: a successful lookup returns the first (unsorted) entry;
an empty versions sequence and a non-200 status produce the matching
errors. -/
theorem C5_get_latest_version_witness :
    getLatestVersionGo "ns" "mod" "prov" (.ok (200, .ok "BODY"))
        (fun _ => .ok ⟨["2.0.0", "9.9.9", "1.0.0"]⟩) = .ok "2.0.0" ∧
    getLatestVersionGo "ns" "mod" "prov" (.ok (200, .ok "BODY"))
        (fun _ => .ok ⟨[]⟩) = .error "no versions found for module ns/mod/prov" ∧
    getLatestVersionGo "ns" "mod" "prov" (.ok (404, .ok "BODY"))
        (fun _ => .ok ⟨["2.0.0"]⟩) = .error "failed to fetch module versions: HTTP 404" := by
  refine ⟨?_, ?_, ?_⟩
  · exact (C5_get_latest_version "ns" "mod" "prov" (.ok (200, .ok "BODY"))
      (fun _ => .ok ⟨["2.0.0", "9.9.9", "1.0.0"]⟩)).1 "BODY" ⟨["2.0.0", "9.9.9", "1.0.0"]⟩
      "2.0.0" ["9.9.9", "1.0.0"] rfl rfl rfl
  · have h := (C5_get_latest_version "ns" "mod" "prov" (.ok (200, .ok "BODY"))
      (fun _ => .ok ⟨[]⟩)).2.2.2.2.2.1 "BODY" ⟨[]⟩ rfl rfl rfl
    simpa using h
  · have h := (C5_get_latest_version "ns" "mod" "prov" (.ok (404, .ok "BODY"))
      (fun _ => .ok ⟨["2.0.0"]⟩)).2.2.1 404 (.ok "BODY") rfl (by decide)
    simpa using h

/-- Claim C6.  The context-aware `Module.Apply` (modelled from the spec, see
`applyRun`): when the provisioning step fails, it sets `applyFailed` to true,
appends exactly one wrapped message of the form
"<operation> failed for module <name>: <cause>" (via `ModuleError.Error`) to
the module's errors, and returns that error; when provisioning succeeds it
leaves the module's state unchanged and returns nil. -/
theorem C6_apply_records_failure (m : TfModule) (res : Option String) :
    (∀ cause, res = some cause →
      applyRun m res =
        ({ m with applyFailed := true,
                  errors := m.errors ++ [moduleErrorMessage "apply" m.name cause] },
         some (moduleErrorMessage "apply" m.name cause))) ∧
    (res = none → applyRun m res = (m, none)) := by
  constructor
  · intro cause hres
    simp [applyRun, hres]
  · intro hres
    simp [applyRun, hres]

/-- Witness for C6: one failing and one succeeding provisioning step. -/
theorem C6_apply_records_failure_witness :
    applyRun ⟨"vnet", [], false⟩ (some "exit status 1") =
      (⟨"vnet", ["apply failed for module vnet: exit status 1"], true⟩,
       some "apply failed for module vnet: exit status 1") ∧
    applyRun ⟨"vnet", [], false⟩ none = (⟨"vnet", [], false⟩, none) := by
  constructor
  · have h := (C6_apply_records_failure ⟨"vnet", [], false⟩ (some "exit status 1")).1
      "exit status 1" rfl
    simpa [moduleErrorMessage] using h
  · exact (C6_apply_records_failure ⟨"vnet", [], false⟩ none).2 rfl

/-- Claim C7.  The context-aware `Module.Cleanup` (modelled from the spec, see
`cleanupRun`) checks for cancellation before processing each glob pattern of
its fixed pattern list: if the context is cancelled it aborts immediately
with a cancellation error, leaving the file state exactly as accumulated so
far (files removed in earlier iterations stay removed — no rollback); if not
cancelled it removes the current pattern's matches and continues with the
remaining patterns. -/
theorem C7_cleanup_cancellation (cancelled : Nat → Bool) (glob : String → List String)
    (p : String) (rest : List String) (i : Nat) (files : String → Bool) :
    (cancelled i = true →
      cleanupRun cancelled glob (p :: rest) i files = (files, some ConvError.cancelled)) ∧
    (cancelled i = false →
      cleanupRun cancelled glob (p :: rest) i files =
        cleanupRun cancelled glob rest (i + 1) (removeMatches (glob p) files)) ∧
    (cancelled 0 = true →
      cleanupRun cancelled glob cleanupPatterns 0 files = (files, some ConvError.cancelled)) := by
  refine ⟨?_, ?_, ?_⟩
  · intro h; simp [cleanupRun, h]
  · intro h; simp [cleanupRun, h]
  · intro h; simp [cleanupRun, cleanupPatterns, h]

/-- Witness for C7: an already-cancelled context aborts the fixed-pattern
cleanup immediately with the file state untouched, and an uncancelled check
proceeds to the next pattern. -/
theorem C7_cleanup_cancellation_witness :
    cleanupRun (fun _ => true) (fun _ => ["f1"]) cleanupPatterns 0 (fun _ => true)
      = ((fun _ => true : String → Bool), some ConvError.cancelled) ∧
    cleanupRun (fun _ => false) (fun _ => ["f1"]) ["*tfstate*"] 5 (fun _ => true)
      = cleanupRun (fun _ => false) (fun _ => ["f1"]) [] 6
          (removeMatches ["f1"] (fun _ => true)) := by
  constructor
  · exact (C7_cleanup_cancellation (fun _ => true) (fun _ => ["f1"]) "*.terraform*" []
      0 (fun _ => true)).2.2 rfl
  · exact (C7_cleanup_cancellation (fun _ => false) (fun _ => ["f1"]) "*tfstate*" []
      5 (fun _ => true)).2.1 rfl

/-! ### The version-pin replacement scanner: supporting lemmas -/

theorem length_dropWhile_le (p : Char → Bool) :
    ∀ l : List Char, (l.dropWhile p).length ≤ l.length := by
  intro l
  induction l with
  | nil => simp
  | cons c cs ih =>
    by_cases h : p c
    · simpa [List.dropWhile, h] using Nat.le_succ_of_le ih
    · simp [List.dropWhile, h]

theorem findClose_length :
    ∀ {cs rest : List Char}, findClose cs = some rest → rest.length < cs.length := by
  intro cs
  induction cs with
  | nil => intro rest h; simp [findClose] at h
  | cons c cs ih =>
    intro rest h
    by_cases hc : c = '"'
    · simp only [findClose, hc, if_pos rfl] at h
      cases h
      simp
    · simp only [findClose, hc, if_false] at h
      exact Nat.lt_succ_of_lt (ih h)

theorem matchVersionAt_length :
    ∀ {cs g rest : List Char}, matchVersionAt cs = some (g, rest) → rest.length < cs.length := by
  intro cs g rest h
  unfold matchVersionAt at h
  split at h
  · split at h
    next cs3 heq3 =>
      split at h
      next cs5 heq5 =>
        split at h
        next r heqf =>
          simp only [Option.some.injEq, Prod.mk.injEq] at h
          obtain ⟨-, hr⟩ := h
          subst hr
          have h1 := findClose_length heqf
          have h2 := length_dropWhile_le isSpaceRE2 cs3
          have h3 := length_dropWhile_le isSpaceRE2 (cs.drop 7)
          have h4 : (cs.drop 7).length ≤ cs.length := by simp
          rw [heq5] at h2
          rw [heq3] at h3
          simp only [List.length_cons] at h2 h3
          omega
        next => simp at h
      next => simp at h
    next => simp at h
  · simp at h

theorem replaceVersionAux_nil (v : String) : ∀ n, replaceVersionAux v n [] = [] := by
  intro n; cases n <;> rfl

theorem replaceVersionAux_fuel (v : String) :
    ∀ (k : Nat) (cs : List Char) (n m : Nat), cs.length ≤ k → cs.length ≤ n →
      cs.length ≤ m → replaceVersionAux v n cs = replaceVersionAux v m cs := by
  intro k
  induction k with
  | zero =>
    intro cs n m hk _ _
    have hcs : cs = [] := List.length_eq_zero.mp (Nat.le_zero.mp hk)
    subst hcs
    rw [replaceVersionAux_nil, replaceVersionAux_nil]
  | succ k ih =>
    intro cs n m hk hn hm
    cases cs with
    | nil => rw [replaceVersionAux_nil, replaceVersionAux_nil]
    | cons c cs' =>
      simp only [List.length_cons] at hk hn hm
      cases n with
      | zero => omega
      | succ n' =>
        cases m with
        | zero => omega
        | succ m' =>
          rw [replaceVersionAux, replaceVersionAux]
          cases hmv : matchVersionAt (c :: cs') with
          | some gr =>
            obtain ⟨g, rest⟩ := gr
            have hlt := matchVersionAt_length hmv
            simp only [List.length_cons] at hlt
            simp only [hmv]
            rw [ih rest n' m' (by omega) (by omega) (by omega)]
          | none =>
            simp only [hmv]
            rw [ih cs' n' m' (by omega) (by omega) (by omega)]

theorem takeWhile_append_of_all (p : Char → Bool) :
    ∀ (w l : List Char), (∀ c ∈ w, p c = true) →
      (w ++ l).takeWhile p = w ++ l.takeWhile p := by
  intro w
  induction w with
  | nil => intro l _; simp
  | cons a w ih =>
    intro l hall
    have ha := hall a (by simp)
    simp only [List.cons_append, List.takeWhile_cons, ha, if_true]
    rw [ih l (fun c hc => hall c (by simp [hc]))]

theorem dropWhile_append_of_all (p : Char → Bool) :
    ∀ (w l : List Char), (∀ c ∈ w, p c = true) →
      (w ++ l).dropWhile p = l.dropWhile p := by
  intro w
  induction w with
  | nil => intro l _; simp
  | cons a w ih =>
    intro l hall
    have ha := hall a (by simp)
    simp only [List.cons_append, List.dropWhile_cons, ha, if_true]
    exact ih l (fun c hc => hall c (by simp [hc]))

theorem findClose_append :
    ∀ (x b : List Char), (∀ c ∈ x, c ≠ '"') → findClose (x ++ '"' :: b) = some b := by
  intro x
  induction x with
  | nil => intro b _; simp [findClose]
  | cons a x ih =>
    intro b hall
    have ha : a ≠ '"' := hall a (by simp)
    simp only [List.cons_append, findClose, ha, if_false]
    exact ih b (fun c hc => hall c (by simp [hc]))

theorem matchVersionAt_head (w1 w2 x b : List Char)
    (hw1 : ∀ c ∈ w1, isSpaceRE2 c = true) (hw2 : ∀ c ∈ w2, isSpaceRE2 c = true)
    (hx : ∀ c ∈ x, c ≠ '"') :
    matchVersionAt ("version".data ++ (w1 ++ ('=' :: (w2 ++ ('"' :: (x ++ ('"' :: b)))))))
      = some ("version".data ++ (w1 ++ ('=' :: (w2 ++ ['"']))), b) := by
  have hpre := isPrefixOf_append_self "version".data
    (w1 ++ ('=' :: (w2 ++ ('"' :: (x ++ ('"' :: b))))))
  have hdrop : ("version".data ++ (w1 ++ ('=' :: (w2 ++ ('"' :: (x ++ ('"' :: b))))))).drop 7
      = w1 ++ ('=' :: (w2 ++ ('"' :: (x ++ ('"' :: b))))) := by
    have h7 : ("version".data : List Char).length = 7 := by decide
    rw [← h7]
    exact List.drop_left _ _
  have heq : isSpaceRE2 '=' = false := by decide
  have hquote : isSpaceRE2 '"' = false := by decide
  unfold matchVersionAt
  rw [if_pos hpre, hdrop]
  rw [dropWhile_append_of_all isSpaceRE2 w1 _ hw1]
  rw [takeWhile_append_of_all isSpaceRE2 w1 _ hw1]
  simp only [List.dropWhile_cons, List.takeWhile_cons, heq, if_false, Bool.false_eq_true]
  rw [dropWhile_append_of_all isSpaceRE2 w2 _ hw2]
  rw [takeWhile_append_of_all isSpaceRE2 w2 _ hw2]
  simp only [List.dropWhile_cons, List.takeWhile_cons, hquote, if_false, Bool.false_eq_true]
  rw [findClose_append x b hx]
  simp

theorem replaceVersionAux_fuel_self (v : String) (cs : List Char) (n : Nat)
    (h : cs.length ≤ n) :
    replaceVersionAux v n cs = replaceVersionAux v cs.length cs :=
  replaceVersionAux_fuel v n cs n cs.length h h (Nat.le_refl _)

theorem replaceVersionAux_head (v : String) (w1 w2 x b : List Char)
    (hw1 : ∀ c ∈ w1, isSpaceRE2 c = true) (hw2 : ∀ c ∈ w2, isSpaceRE2 c = true)
    (hx : ∀ c ∈ x, c ≠ '"') :
    replaceVersionAux v
        ("version".data ++ (w1 ++ ('=' :: (w2 ++ ('"' :: (x ++ ('"' :: b))))))).length
        ("version".data ++ (w1 ++ ('=' :: (w2 ++ ('"' :: (x ++ ('"' :: b)))))))
      = "version".data ++ (w1 ++ ('=' :: (w2 ++ ('"' ::
          (("~> " ++ v).data ++ ('"' :: replaceVersionAux v b.length b)))))) := by
  have hcs : "version".data ++ (w1 ++ ('=' :: (w2 ++ ('"' :: (x ++ ('"' :: b))))))
      = 'v' :: ("ersion".data ++ (w1 ++ ('=' :: (w2 ++ ('"' :: (x ++ ('"' :: b))))))) := rfl
  have hlen : ("version".data ++ (w1 ++ ('=' :: (w2 ++ ('"' :: (x ++ ('"' :: b))))))).length
      = ("ersion".data ++ (w1 ++ ('=' :: (w2 ++ ('"' :: (x ++ ('"' :: b))))))).length + 1 := by
    rw [hcs]; rfl
  rw [hlen, hcs, replaceVersionAux, ← hcs,
    matchVersionAt_head w1 w2 x b hw1 hw2 hx]
  simp
  exact replaceVersionAux_fuel_self v b _ (by omega)

theorem updateVersionInContent_head (v : String) (w1 w2 x b : List Char)
    (hw1 : ∀ c ∈ w1, isSpaceRE2 c = true) (hw2 : ∀ c ∈ w2, isSpaceRE2 c = true)
    (hx : ∀ c ∈ x, c ≠ '"') :
    updateVersionInContent ⟨"version".data ++ (w1 ++ ('=' :: (w2 ++ ('"' :: (x ++ ('"' :: b))))))⟩ v
      = ⟨"version".data ++ (w1 ++ ('=' :: (w2 ++ ('"' ::
          (("~> " ++ v).data ++ ('"' :: (updateVersionInContent ⟨b⟩ v).data))))))⟩ := by
  show String.mk (replaceVersionAux v _ _) = _
  exact congrArg String.mk (replaceVersionAux_head v w1 w2 x b hw1 hw2 hx)

/-- Frame property of the `RevertToRegistry` loop: a path named by no entry is
never written. -/
theorem revertToRegistryGo_frame (cancelled : Nat → Bool)
    (lookup : String → String → String → Except String String) :
    ∀ (list : List FileRestore) (i : Nat) (fs : FS) (p : String),
      (∀ e ∈ list, e.path ≠ p) →
      (revertToRegistryGo cancelled lookup list i fs).1 p = fs p := by
  intro list
  induction list with
  | nil => intro i fs p _; simp [revertToRegistryGo]
  | cons r rest ih =>
    intro i fs p hne
    by_cases hc : cancelled i = true
    · simp [revertToRegistryGo, hc]
    · have hcf : cancelled i = false := by simpa using hc
      have hrp : p ≠ r.path := Ne.symm (hne r (by simp))
      have hrest : ∀ e ∈ rest, e.path ≠ p := fun e he => hne e (by simp [he])
      cases hl : lookup r.nspace r.moduleName r.provider with
      | ok v =>
        simp only [revertToRegistryGo, hcf, Bool.false_eq_true, if_false, hl]
        rw [ih _ _ p hrest]
        simp [writeFS, hrp]
      | error e =>
        simp only [revertToRegistryGo, hcf, Bool.false_eq_true, if_false, hl]
        rw [ih _ _ p hrest]
        simp [writeFS, hrp]

/-- With an uncancelled context, the `RevertToRegistry` loop reaches the end
of the list and reports no error. -/
theorem revertToRegistryGo_completes (cancelled : Nat → Bool)
    (lookup : String → String → String → Except String String)
    (hnc : ∀ j, cancelled j = false) :
    ∀ (list : List FileRestore) (i : Nat) (fs : FS),
      (revertToRegistryGo cancelled lookup list i fs).2 = none := by
  intro list
  induction list with
  | nil => intro i fs; simp [revertToRegistryGo]
  | cons r rest ih =>
    intro i fs
    cases hl : lookup r.nspace r.moduleName r.provider with
    | ok v =>
      simp only [revertToRegistryGo, hnc i, Bool.false_eq_true, if_false, hl]
      exact ih _ _
    | error e =>
      simp only [revertToRegistryGo, hnc i, Bool.false_eq_true, if_false, hl]
      exact ih _ _

/-- Per-entry effect of the `RevertToRegistry` loop: with an uncancelled
context and pairwise-distinct paths, every entry's file ends up holding the
version-updated original content when its registry lookup succeeded, and the
original content verbatim when the lookup failed. -/
theorem revertToRegistryGo_writes (cancelled : Nat → Bool)
    (lookup : String → String → String → Except String String)
    (hnc : ∀ j, cancelled j = false) :
    ∀ (list : List FileRestore) (i : Nat) (fs : FS),
      list.Pairwise (fun a b => a.path ≠ b.path) →
      ∀ r ∈ list,
        (revertToRegistryGo cancelled lookup list i fs).1 r.path =
          some (match lookup r.nspace r.moduleName r.provider with
            | .ok v => updateVersionInContent r.originalContent v
            | .error _ => r.originalContent) := by
  intro list
  induction list with
  | nil => intro i fs _ r hr; simp at hr
  | cons a rest ih =>
    intro i fs hpw r hr
    rw [List.pairwise_cons] at hpw
    rcases List.mem_cons.mp hr with hra | hrr
    · subst hra
      have hfr : ∀ e ∈ rest, e.path ≠ r.path := fun e he => Ne.symm (hpw.1 e he)
      cases hl : lookup r.nspace r.moduleName r.provider with
      | ok v =>
        simp only [revertToRegistryGo, hnc i, Bool.false_eq_true, if_false, hl]
        rw [revertToRegistryGo_frame cancelled lookup rest (i + 1) _ r.path hfr]
        simp [writeFS]
      | error e =>
        simp only [revertToRegistryGo, hnc i, Bool.false_eq_true, if_false, hl]
        rw [revertToRegistryGo_frame cancelled lookup rest (i + 1) _ r.path hfr]
        simp [writeFS]
    · cases hl : lookup a.nspace a.moduleName a.provider with
      | ok v =>
        simp only [revertToRegistryGo, hnc i, Bool.false_eq_true, if_false, hl]
        exact ih (i + 1) _ hpw.2 r hrr
      | error e =>
        simp only [revertToRegistryGo, hnc i, Bool.false_eq_true, if_false, hl]
        exact ih (i + 1) _ hpw.2 r hrr

/-- Claim C4.  For every `FileRestore` processed by `RevertToRegistry` (run
with an uncancelled context over entries with distinct paths): if the
registry lookup for its coordinates succeeds with version `v`, the file is
written back as the original pre-rewrite content with the version pin
replaced via `updateVersionInContent`; if the lookup fails, the file is
written back as the original content verbatim; in both cases processing
continues with the next entry and the loop finishes without error.  The last
conjunct characterises `updateVersionInContent` itself: on any content of the
shape `version<ws>=<ws>"<literal>"<remainder>`, exactly the literal inside
the quotes is replaced by `~> v` — every byte before the opening quote and
the quotes themselves are kept, and the remainder is processed the same way
(so every further `version = "..."` attribute is also replaced and all other
bytes are unchanged). -/
theorem C4_revert_to_registry (cancelled : Nat → Bool)
    (lookup : String → String → String → Except String String)
    (list : List FileRestore) (i : Nat) (fs : FS)
    (hnc : ∀ j, cancelled j = false)
    (hdist : list.Pairwise (fun a b => a.path ≠ b.path)) :
    (∀ r, r ∈ list →
      (revertToRegistryGo cancelled lookup list i fs).1 r.path =
        some (match lookup r.nspace r.moduleName r.provider with
          | .ok v => updateVersionInContent r.originalContent v
          | .error _ => r.originalContent)) ∧
    (revertToRegistryGo cancelled lookup list i fs).2 = none ∧
    (∀ (w1 w2 x b : List Char) (v : String),
      (∀ c ∈ w1, isSpaceRE2 c = true) → (∀ c ∈ w2, isSpaceRE2 c = true) →
      (∀ c ∈ x, c ≠ '"') →
      updateVersionInContent
          ⟨"version".data ++ (w1 ++ ('=' :: (w2 ++ ('"' :: (x ++ ('"' :: b))))))⟩ v
        = ⟨"version".data ++ (w1 ++ ('=' :: (w2 ++ ('"' ::
            (("~> " ++ v).data ++ ('"' :: (updateVersionInContent ⟨b⟩ v).data))))))⟩) :=
  ⟨fun r hr => revertToRegistryGo_writes cancelled lookup hnc list i fs hdist r hr,
   revertToRegistryGo_completes cancelled lookup hnc list i fs,
   fun w1 w2 x b v h1 h2 h3 => updateVersionInContent_head v w1 w2 x b h1 h2 h3⟩

/-- Witness for C4: a two-entry run where the first lookup fails (verbatim
restore) and the second succeeds (pin rewritten to `~> 2.0.0`), plus one
concrete instance of the replacement shape. -/
theorem C4_revert_to_registry_witness :
    (revertToRegistryGo (fun _ => false)
        (fun _ n _ => if n = "good" then Except.ok "2.0.0" else Except.error "boom")
        [⟨"f1.tf", "version = \"1.0\"", "bad", "prov", "ns"⟩,
         ⟨"f2.tf", "version = \"1.0\"", "good", "prov", "ns"⟩] 0 (fun _ => none)).1
      "f1.tf" = some "version = \"1.0\"" ∧
    (revertToRegistryGo (fun _ => false)
        (fun _ n _ => if n = "good" then Except.ok "2.0.0" else Except.error "boom")
        [⟨"f1.tf", "version = \"1.0\"", "bad", "prov", "ns"⟩,
         ⟨"f2.tf", "version = \"1.0\"", "good", "prov", "ns"⟩] 0 (fun _ => none)).1
      "f2.tf" = some "version = \"~> 2.0.0\"" ∧
    (revertToRegistryGo (fun _ => false)
        (fun _ n _ => if n = "good" then Except.ok "2.0.0" else Except.error "boom")
        [⟨"f1.tf", "version = \"1.0\"", "bad", "prov", "ns"⟩,
         ⟨"f2.tf", "version = \"1.0\"", "good", "prov", "ns"⟩] 0 (fun _ => none)).2
      = none ∧
    updateVersionInContent ⟨"version".data ++ ([' '] ++ ('=' :: ([' '] ++ ('"' ::
        ("1.0".data ++ ('"' :: ([] : List Char)))))))⟩ "3.1.4"
      = ⟨"version".data ++ ([' '] ++ ('=' :: ([' '] ++ ('"' ::
          (("~> " ++ "3.1.4").data ++ ('"' :: (updateVersionInContent ⟨[]⟩ "3.1.4").data))))))⟩ := by
  have hdist : ([⟨"f1.tf", "version = \"1.0\"", "bad", "prov", "ns"⟩,
      ⟨"f2.tf", "version = \"1.0\"", "good", "prov", "ns"⟩] :
        List FileRestore).Pairwise (fun a b => a.path ≠ b.path) := by
    simp [List.pairwise_cons]
  have h := C4_revert_to_registry (fun _ => false)
    (fun _ n _ => if n = "good" then Except.ok "2.0.0" else Except.error "boom")
    [⟨"f1.tf", "version = \"1.0\"", "bad", "prov", "ns"⟩,
     ⟨"f2.tf", "version = \"1.0\"", "good", "prov", "ns"⟩] 0 (fun _ => none)
    (fun _ => rfl) hdist
  refine ⟨?_, ?_, h.2.1, ?_⟩
  · have h1 := h.1 ⟨"f1.tf", "version = \"1.0\"", "bad", "prov", "ns"⟩ (by simp)
    simpa using h1
  · have h2 := h.1 ⟨"f2.tf", "version = \"1.0\"", "good", "prov", "ns"⟩ (by simp)
    have hval : updateVersionInContent "version = \"1.0\"" "2.0.0"
        = "version = \"~> 2.0.0\"" := by decide
    simpa [hval] using h2
  · exact h.2.2 [' '] [' '] "1.0".data [] "3.1.4" (by decide) (by decide) (by decide)
